import Mathlib

/-! pcmd: a verification development.

Shallow embedding of `pcmd.go` (package `main`): the name derivation
(`baseName`, `parseConfig`, `ensureSSHConfigPresent`), the readiness poller
(`waitForControlMaster`), the lock manager (`flock`, `flockPath`) over a small
model of the file-system calls it makes, and the supervisor
(`pipeToProxyCommand`, `lockOrExit`, `lockOrExpectControlMaster`) as an
event-driven state machine.
-/

namespace Pcmd

/-! ## Configuration and name derivation -/

/-- Config is the global config struct of `pcmd.go` (same fields, same order).
Go `int` is modelled by `Int`, Go `string` by `String`. -/
structure Config where
  WorkDir : String
  GracePeriod : Int
  Lock : Bool
  SSHUser : String
  SSHHost : String
  SSHPort : Int
  ExpectControlMaster : Bool
  ShowVersion : Bool
  LockFilePath : String
  LogFilePath : String
  CmdArgs : List String
  CmdName : String
deriving DecidableEq, Repr

/-- Go `strconv.Itoa`: the decimal text of an integer, with a leading minus
sign for a negative one. -/
def itoa (n : Int) : String :=
  match n with
  | Int.ofNat k => Nat.repr k
  | Int.negSucc k => "-" ++ Nat.repr (k + 1)

/-- Function `baseName` of `pcmd.go`, lines 430-446. -/
def baseName (config : Config) : String :=
  let bn := ".pcmd/pcmd"
  let bn := if config.SSHUser ≠ "" then bn ++ "." ++ config.SSHUser else bn
  let bn := if config.SSHHost ≠ "" then bn ++ "." ++ config.SSHHost else bn
  let bn := if config.SSHPort ≠ 22 ∧ config.SSHPort ≠ 0
    then bn ++ "." ++ itoa config.SSHPort else bn
  bn

/-- Function `ensureSSHConfigPresent` of `pcmd.go`, lines 448-453: `none`
stands for the `os.Exit(1)` it takes when a field is missing. -/
def ensureSSHConfigPresent (config : Config) : Option Unit :=
  if config.SSHUser = "" ∨ config.SSHHost = "" ∨ config.SSHPort = 0 then none
  else some ()

/-- Function `parseConfig` of `pcmd.go` from line 409 on: the derivation of the
paths once the flags are parsed into `config`. The two library values used by
the non-locking log name are inputs: `cmdBase` is `filepath.Base(config.CmdName)`
and `stamp` is the formatted `time.Now()`. `none` is the process exit taken in
`ensureSSHConfigPresent`. -/
def parseConfig (config : Config) (cmdBase stamp : String) : Option Config :=
  let baseFilename := baseName config
  let config := { config with Lock := config.Lock || config.ExpectControlMaster }
  let config := { config with LockFilePath := baseFilename ++ ".lock" }
  if config.Lock then
    match ensureSSHConfigPresent config with
    | none => none
    | some _ => some { config with LogFilePath := baseFilename ++ ".log" }
  else
    some { config with
      LogFilePath := baseFilename ++ "." ++ cmdBase ++ "." ++ stamp ++ ".log" }

/-- A configuration as the flag defaults of `parseConfig` leave it (lines
390-397), with the three identity flags set. -/
def flagsConfig (user host : String) (port : Int) (lock : Bool) : Config :=
  { WorkDir := ".", GracePeriod := 300, Lock := lock, SSHUser := user,
    SSHHost := host, SSHPort := port, ExpectControlMaster := false,
    ShowVersion := false, LockFilePath := "", LogFilePath := "",
    CmdArgs := [], CmdName := "" }

/-! ## Readiness poller -/

/-- What one run of `waitForControlMaster` did: the value returned, the number
of calls of `controlMasterIsUp`, and the milliseconds spent in `time.Sleep`. -/
structure WaitResult where
  ok : Bool
  calls : Nat
  sleptMs : Nat
deriving DecidableEq, Repr

/-- The `for` loop of `waitForControlMaster` (lines 310-320), entered with the
loop variable at `attempts`. `probe k` is the outcome of call number `k`
(counted from 0) of `controlMasterIsUp`. The body increments `attempts`, and
the post statement of the `for` increments it again. -/
def waitLoop (probe : Nat → Bool) (attempts calls sleptMs : Nat) : WaitResult :=
  if attempts < 400 then
    let attempts := attempts + 1
    let success := probe calls
    if success then
      { ok := success, calls := calls + 1, sleptMs := sleptMs }
    else
      waitLoop probe (attempts + 1) (calls + 1) (sleptMs + 250)
  else
    { ok := false, calls := calls, sleptMs := sleptMs }
termination_by 400 - attempts

/-- Function `waitForControlMaster` of `pcmd.go`, lines 309-322. -/
def waitForControlMaster (probe : Nat → Bool) : WaitResult :=
  waitLoop probe 0 0 0

/-! ## File-system model

The lock manager talks to the kernel through four calls: `os.OpenFile` with
`O_TRUNC|O_CREATE`, `syscall.Flock` with `LOCK_EX|LOCK_NB`, `syscall.Flock` with
`LOCK_UN`, and `os.Remove`. The state below keeps what those calls read and
write: the directory (path to inode), the exclusive locks (inode to the
process whose open file holds it) and a log of the calls made. A lock belongs
to the open file, hence to the inode that was opened, not to the path; removing
a path leaves an already opened inode and its lock alone. -/

/-- Error numbers the calls can return. -/
inductive Errno
  | EWOULDBLOCK
  | EACCES
  | ENOENT
  | EINTR
  | ENOLCK
deriving DecidableEq, Repr

/-- One call into the kernel, as recorded in the log. -/
inductive Call
  | openFile (pid : Nat) (path : String)
  | flockEx (pid : Nat) (ino : Nat)
  | flockUn (pid : Nat) (ino : Nat)
  | remove (pid : Nat) (path : String)
deriving DecidableEq, Repr

/-- Kernel state seen by the lock manager. The four `fail` fields are the
environment: when set, the corresponding call fails with that error and changes
nothing (permissions, missing directory, interrupted call and so on). -/
structure OS where
  dir : List (String × Nat)
  held : List (Nat × Nat)
  nextIno : Nat
  failOpen : Option Errno
  failFlock : Option Errno
  failUnlock : Option Errno
  failRemove : Option Errno
  log : List Call
deriving DecidableEq, Repr

/-- The inode a path names, if the path exists. -/
def OS.lookup (s : OS) (path : String) : Option Nat :=
  (s.dir.find? (fun e => e.1 = path)).map (fun e => e.2)

/-- The process holding the exclusive lock of an inode, if any. -/
def OS.holder (s : OS) (ino : Nat) : Option Nat :=
  (s.held.find? (fun e => e.1 = ino)).map (fun e => e.2)

/-- Call `os.OpenFile(path, os.O_TRUNC|os.O_CREATE, 0640)`: opens the inode the
path names, creating a fresh one when the path is absent. File contents are
not modelled, so truncation changes nothing here. -/
def openFile (pid : Nat) (path : String) (s : OS) : Except Errno Nat × OS :=
  let s := { s with log := s.log ++ [Call.openFile pid path] }
  match s.failOpen with
  | some e => (.error e, s)
  | none =>
    match s.lookup path with
    | some ino => (.ok ino, s)
    | none =>
      (.ok s.nextIno,
        { s with dir := (path, s.nextIno) :: s.dir, nextIno := s.nextIno + 1 })

/-- Call `syscall.Flock(fd, LOCK_EX|LOCK_NB)` on the open file of process `pid`
for inode `ino`: `EWOULDBLOCK` when another open file holds the lock. -/
def flockEx (pid ino : Nat) (s : OS) : Option Errno × OS :=
  let s := { s with log := s.log ++ [Call.flockEx pid ino] }
  match s.failFlock with
  | some e => (some e, s)
  | none =>
    match s.holder ino with
    | some owner =>
      if owner = pid then (none, s) else (some Errno.EWOULDBLOCK, s)
    | none => (none, { s with held := (ino, pid) :: s.held })

/-- Call `syscall.Flock(fd, LOCK_UN)`. -/
def flockUn (pid ino : Nat) (s : OS) : Option Errno × OS :=
  let s := { s with log := s.log ++ [Call.flockUn pid ino] }
  match s.failUnlock with
  | some e => (some e, s)
  | none => (none, { s with held := s.held.filter (fun e => e ≠ (ino, pid)) })

/-- Call `os.Remove(path)`: unlinks whatever inode the path names now. -/
def remove (pid : Nat) (path : String) (s : OS) : Option Errno × OS :=
  let s := { s with log := s.log ++ [Call.remove pid path] }
  match s.failRemove with
  | some e => (some e, s)
  | none =>
    match s.lookup path with
    | none => (some Errno.ENOENT, s)
    | some _ => (none, { s with dir := s.dir.filter (fun e => e.1 ≠ path) })

/-! ## Lock manager -/

/-- A Go `func() error` that acts on the kernel state. -/
abbrev Release := OS → Option Errno × OS

/-- Variable `noop` of `pcmd.go`, lines 233-235. -/
def noop : Release := fun s => (none, s)

/-- Function `flock` of `pcmd.go`, lines 237-252; `f` is the inode of the open
file. Returns `(unlock, locked, err)` and the new kernel state. -/
def flock (pid f : Nat) (s : OS) : (Release × Bool × Option Errno) × OS :=
  match flockEx pid f s with
  | (err, s) =>
    if err = some Errno.EWOULDBLOCK then ((noop, false, none), s)
    else if err ≠ none then ((noop, false, err), s)
    else ((fun t => flockUn pid f t, true, none), s)

/-- Function `flockPath` of `pcmd.go`, lines 254-278. `Except.error` is the
`log.Fatal` taken when the open or the lock call fails. -/
def flockPath (pid : Nat) (path : String) (s : OS) :
    Except Errno (Release × Bool) × OS :=
  match openFile pid path s with
  | (.error e, s) => (.error e, s)
  | (.ok lockFile, s) =>
    match flock pid lockFile s with
    | ((_, _, some e), s) => (.error e, s)
    | ((unlock, locked, none), s) =>
      let unlockAndDelete : Release := fun t =>
        if locked then
          match unlock t with
          | (some e, t) => (some e, t)
          | (none, t) => remove pid path t
        else (none, t)
      (.ok (unlockAndDelete, locked), s)

/-! ## Interleaved instances of the lock manager

Each instance runs `flockPath` and later its release function; the kernel calls
of different instances interleave. `Proc` is the program counter of one
instance between two calls. -/

/-- Where one instance stands. -/
inductive Proc
  | start
  | opened (ino : Nat)
  | returned (ino : Nat) (locked : Bool)
  | unlocked (ino : Nat)
  | released (err : Option Errno)
  | fatal (err : Errno)
deriving DecidableEq, Repr

/-- The next kernel call of instance `pid`, in the order `flockPath` and its
`unlockAndDelete` make them: open, lock, then on release unlock and remove. -/
def stepProc (pid : Nat) (path : String) (p : Proc) (s : OS) : Proc × OS :=
  match p with
  | .start =>
    match openFile pid path s with
    | (.error e, s) => (.fatal e, s)
    | (.ok ino, s) => (.opened ino, s)
  | .opened ino =>
    match flockEx pid ino s with
    | (err, s) =>
      if err = some Errno.EWOULDBLOCK then (.returned ino false, s)
      else
        match err with
        | some e => (.fatal e, s)
        | none => (.returned ino true, s)
  | .returned ino locked =>
    if locked then
      match flockUn pid ino s with
      | (some e, s) => (.released (some e), s)
      | (none, s) => (.unlocked ino, s)
    else (.released none, s)
  | .unlocked _ =>
    match remove pid path s with
    | (err, s) => (.released err, s)
  | .released err => (.released err, s)
  | .fatal e => (.fatal e, s)

/-- Two consecutive calls of one instance with no other instance in between. -/
def stepProcTwice (pid : Nat) (path : String) (p : Proc) (s : OS) : Proc × OS :=
  stepProc pid path (stepProc pid path p s).1 (stepProc pid path p s).2

/-- All instances and the kernel state they share. Instance `pid` is entry
number `pid` of the list. -/
structure Sys where
  procs : List Proc
  os : OS
deriving DecidableEq, Repr

/-- One step of the interleaving: instance `pid` makes its next call. -/
def sysStep (path : String) (σ : Sys) (pid : Nat) : Sys :=
  match σ.procs.get? pid with
  | none => σ
  | some p =>
    match stepProc pid path p σ.os with
    | (q, s) => { procs := σ.procs.set pid q, os := s }

/-- Runs a schedule: the list of instances in the order they take steps. -/
def runSchedule (path : String) (σ : Sys) (schedule : List Nat) : Sys :=
  schedule.foldl (sysStep path) σ

/-- A kernel state with an empty directory, no locks, no injected failure. -/
def emptyOS : OS :=
  { dir := [], held := [], nextIno := 0, failOpen := none, failFlock := none,
    failUnlock := none, failRemove := none, log := [] }

/-- The system of `n` instances about to call `flockPath`. -/
def initSys (n : Nat) : Sys :=
  { procs := List.replicate n Proc.start, os := emptyOS }

/-- Instance holds the lock as far as it knows: `flockPath` returned
`locked = true` to it and it has not begun to release. -/
def Proc.observesLocked (p : Proc) : Bool :=
  match p with
  | .returned _ true => true
  | _ => false

/-- Number of instances that observe `locked = true`. -/
def Sys.lockedCount (σ : Sys) : Nat :=
  (σ.procs.filter Proc.observesLocked).length

/-! ## Subprocess supervisor -/

/-- What the two `select` statements of `pipeToProxyCommand` can receive:
`cmdDone`, `stdioDone`, `ctx.Done()` and the `time.After` channel. -/
inductive Event
  | childExited
  | streamFinished
  | cancellationFired
  | graceTimerFired
deriving DecidableEq, Repr

/-- Effects of `pipeToProxyCommand`, in the order the code performs them.
`cancelLogTail` kills the `tail` helper; `killChild` is `cmd.Process.Kill()`
on the proxy command itself. -/
inductive Action
  | openLogFile
  | startLogTail
  | stdinPipe
  | stdoutPipe
  | startChild
  | cancelLogTail
  | closeStdin
  | closeStdout
  | startGraceTimer
  | killChild
deriving DecidableEq, Repr

/-- Outcomes of the calls of `pipeToProxyCommand` that can fail; each failure
is answered by `log.Fatal`. -/
structure Env where
  logOpens : Bool
  tailStarts : Bool
  stdinPipeOk : Bool
  stdoutPipeOk : Bool
  childStarts : Bool
deriving DecidableEq, Repr

/-- How a function of the program ends: it returns to its caller, it ends the
process through `os.Exit` (directly or by `log.Fatal`), or it is still blocked
in a `select` when the events run out. -/
inductive Outcome
  | returned
  | exited (code : Nat)
  | blocked
deriving DecidableEq, Repr

/-- Program point of `pipeToProxyCommand` once the child runs: the first
`select` (line 175), the second `select` (line 203), or past its `return`. -/
inductive Phase
  | running
  | grace
  | done
deriving DecidableEq, Repr

/-- Supervisor state: program point and the effects performed so far. -/
structure Sup where
  phase : Phase
  trace : List Action
deriving DecidableEq, Repr

/-- One received event. At the first `select`, `cmdDone` returns (running the
deferred `cancelLogTail`), `stdioDone` and `ctx.Done()` jump to
`CleanupAndWaitForGracePeriod` (lines 194-201); the timer channel does not
exist yet. At the second `select` only `cmdDone` and the timer are listened to;
the timer branch kills the child and returns. -/
def supStep (s : Sup) (e : Event) : Sup :=
  match s.phase, e with
  | .running, .childExited =>
    { phase := .done, trace := s.trace ++ [.cancelLogTail] }
  | .running, .streamFinished =>
    { phase := .grace, trace := s.trace ++
        [.cancelLogTail, .closeStdin, .closeStdout, .startGraceTimer] }
  | .running, .cancellationFired =>
    { phase := .grace, trace := s.trace ++
        [.cancelLogTail, .closeStdin, .closeStdout, .startGraceTimer] }
  | .running, .graceTimerFired => s
  | .grace, .childExited =>
    { phase := .done, trace := s.trace ++ [.cancelLogTail] }
  | .grace, .graceTimerFired =>
    { phase := .done, trace := s.trace ++ [.killChild, .cancelLogTail] }
  | .grace, .streamFinished => s
  | .grace, .cancellationFired => s
  | .done, _ => s

/-- The effects of lines 117-150 when every call succeeds. -/
def setupTrace : List Action :=
  [.openLogFile, .startLogTail, .stdinPipe, .stdoutPipe, .startChild]

/-- Function `pipeToProxyCommand` of `pcmd.go`, lines 116-211, run against the
events its `select` statements receive. A failing call ends the process with
`log.Fatal`, that is `os.Exit(1)`. -/
def pipeToProxyCommand (env : Env) (events : List Event) : Outcome × List Action :=
  if !env.logOpens then (.exited 1, [.openLogFile])
  else if !env.tailStarts then (.exited 1, [.openLogFile, .startLogTail])
  else if !env.stdinPipeOk then
    (.exited 1, [.openLogFile, .startLogTail, .stdinPipe])
  else if !env.stdoutPipeOk then
    (.exited 1, [.openLogFile, .startLogTail, .stdinPipe, .stdoutPipe])
  else if !env.childStarts then (.exited 1, setupTrace)
  else
    let s := events.foldl supStep { phase := .running, trace := setupTrace }
    (if s.phase = .done then .returned else .blocked, s.trace)

/-- What one run of the process did around the lock: how it ended, the kernel
state it left, and how many times the release function was called. -/
structure LockRun where
  outcome : Outcome
  os : OS
  locked : Bool
  releaseRuns : Nat
deriving DecidableEq, Repr

/-- Go `defer unlock()` at the end of the enclosing function: the deferred call
runs when the function returns; `os.Exit` ends the process without running
deferred calls, and a blocked function has not reached them. -/
def runDeferred (unlock : Release) (locked : Bool) (o : Outcome) (s : OS) : LockRun :=
  match o with
  | .returned => { outcome := o, os := (unlock s).2, locked := locked, releaseRuns := 1 }
  | .exited _ => { outcome := o, os := s, locked := locked, releaseRuns := 0 }
  | .blocked => { outcome := o, os := s, locked := locked, releaseRuns := 0 }

/-- Function `lockOrExit` of `pcmd.go`, lines 105-114. -/
def lockOrExit (pid : Nat) (config : Config) (env : Env) (events : List Event)
    (s : OS) : LockRun :=
  match flockPath pid config.LockFilePath s with
  | (.error _, s) => { outcome := .exited 1, os := s, locked := false, releaseRuns := 0 }
  | (.ok (unlock, locked), s) =>
    if locked then
      runDeferred unlock locked (pipeToProxyCommand env events).1 s
    else
      runDeferred unlock locked (.exited 1) s

/-- Function `lockOrExpectControlMaster` of `pcmd.go`, lines 67-103. `probe` is
the sequence of outcomes of `controlMasterIsUp`; the nested `ssh -W` command of
lines 90-97 is started and waited for, which returns. -/
def lockOrExpectControlMaster (pid : Nat) (config : Config) (env : Env)
    (events : List Event) (probe : Nat → Bool) (s : OS) : LockRun :=
  match flockPath pid config.LockFilePath s with
  | (.error _, s) => { outcome := .exited 1, os := s, locked := false, releaseRuns := 0 }
  | (.ok (unlock, locked), s) =>
    if locked then
      runDeferred unlock locked (pipeToProxyCommand env events).1 s
    else if !env.tailStarts then
      runDeferred unlock locked (.exited 1) s
    else if (waitForControlMaster probe).ok then
      runDeferred unlock locked .returned s
    else
      runDeferred unlock locked (.exited 1) s

/-- Number of `cmd.Process.Kill()` calls in a trace. -/
def killCount (trace : List Action) : Nat :=
  trace.count Action.killChild

/-- An environment in which every call succeeds. -/
def goodEnv : Env :=
  { logOpens := true, tailStarts := true, stdinPipeOk := true,
    stdoutPipeOk := true, childStarts := true }

/-- The kernel's side of the lock: no inode has two holders. -/
def OS.exclusive (s : OS) : Prop :=
  (s.held.map Prod.fst).Nodup

/-- The effects of `CleanupAndWaitForGracePeriod`, lines 194-201. -/
def cleanupTrace : List Action :=
  [.cancelLogTail, .closeStdin, .closeStdout, .startGraceTimer]

/-- What is known of the supervisor after it has received `events`, by program
point: before cleanup only timer events (which nothing sends yet) can have been
seen; in the grace period one trigger was seen and since then only events the
second `select` does not listen to; after the return the trace is one of the
three complete ones, the killing one only after a timer event in the grace
period. -/
def SupInv (events : List Event) (s : Sup) : Prop :=
  match s.phase with
  | .running => s.trace = setupTrace ∧ ∀ e ∈ events, e = Event.graceTimerFired
  | .grace =>
    s.trace = setupTrace ++ cleanupTrace
    ∧ ∃ pre trigger mid, events = pre ++ trigger :: mid
      ∧ (∀ e ∈ pre, e = Event.graceTimerFired)
      ∧ (trigger = Event.streamFinished ∨ trigger = Event.cancellationFired)
      ∧ (∀ e ∈ mid, e = Event.streamFinished ∨ e = Event.cancellationFired)
  | .done =>
    s.trace = setupTrace ++ [Action.cancelLogTail]
    ∨ s.trace = setupTrace ++ cleanupTrace ++ [Action.cancelLogTail]
    ∨ (s.trace = setupTrace ++ cleanupTrace ++ [Action.killChild, Action.cancelLogTail]
      ∧ ∃ pre trigger mid post,
        events = pre ++ trigger :: (mid ++ Event.graceTimerFired :: post)
        ∧ (∀ e ∈ pre, e = Event.graceTimerFired)
        ∧ (trigger = Event.streamFinished ∨ trigger = Event.cancellationFired)
        ∧ (∀ e ∈ mid, e = Event.streamFinished ∨ e = Event.cancellationFired))

/-- The configuration `parseConfig` derives for `-lock -r bob -h h1` (port 22
by default). -/
def bobConfig : Config :=
  { flagsConfig "bob" "h1" 22 true with
    LockFilePath := ".pcmd/pcmd.bob.h1.lock", LogFilePath := ".pcmd/pcmd.bob.h1.log" }

/-! ## The goroutines around the two `select` statements

The `select` statements receive what three goroutines send: the two copy
goroutines (lines 158-166), each sending on `stdioDone` when its `io.Copy`
returns, and the wait goroutine (lines 169-173), sending on `cmdDone` when
`cmd.Wait` returns. The world below keeps which of them have something to
send, and the events the `select` statements have received so far. -/

/-- State of the goroutines and channels. `stdioPending` counts the copy
goroutines blocked in their send on the unbuffered `stdioDone`. -/
structure World where
  childExited : Bool
  waitDone : Bool
  stdinCopyDone : Bool
  stdoutCopyDone : Bool
  stdioPending : Nat
  cancelled : Bool
  timerFired : Bool
  received : List Event
deriving DecidableEq, Repr

/-- The supervisor after it has received the given events, the child having
been started. -/
def supAfter (received : List Event) : Sup :=
  received.foldl supStep { phase := .running, trace := setupTrace }

/-- The `select` the supervisor stands at. -/
def World.phase (w : World) : Phase :=
  (supAfter w.received).phase

end Pcmd

namespace Pcmd

/-! ## Name derivation: theorems -/

/-- C10. Two different identities that both pass `ensureSSHConfigPresent`,
user `john.doe` at host `example.com` and user `john` at host
`doe.example.com`, both on port 22, are given the same lock-file path by
`parseConfig`. -/
theorem lockFilePath_collision :
    (parseConfig (flagsConfig "john.doe" "example.com" 22 true) "" "").map
        (fun c => c.LockFilePath) = some ".pcmd/pcmd.john.doe.example.com.lock"
    ∧ (parseConfig (flagsConfig "john" "doe.example.com" 22 true) "" "").map
        (fun c => c.LockFilePath) = some ".pcmd/pcmd.john.doe.example.com.lock"
    ∧ ("john.doe", "example.com", (22 : Int)) ≠ ("john", "doe.example.com", (22 : Int)) := by
  decide

/-! ## Readiness poller: theorems -/

/-- One unfolding of the loop when the probe fails. -/
theorem waitLoop_fail (probe : Nat → Bool) (attempts calls sleptMs : Nat)
    (ha : attempts < 400) (hp : probe calls = false) :
    waitLoop probe attempts calls sleptMs
      = waitLoop probe (attempts + 1 + 1) (calls + 1) (sleptMs + 250) := by
  rw [waitLoop]
  simp [ha, hp]

/-- One unfolding of the loop when the probe succeeds. -/
theorem waitLoop_success (probe : Nat → Bool) (attempts calls sleptMs : Nat)
    (ha : attempts < 400) (hp : probe calls = true) :
    waitLoop probe attempts calls sleptMs
      = { ok := true, calls := calls + 1, sleptMs := sleptMs } := by
  rw [waitLoop]
  simp [ha, hp]

/-- The loop is over once the counter has reached 400. -/
theorem waitLoop_exhausted (probe : Nat → Bool) (attempts calls sleptMs : Nat)
    (ha : ¬ attempts < 400) :
    waitLoop probe attempts calls sleptMs
      = { ok := false, calls := calls, sleptMs := sleptMs } := by
  rw [waitLoop]
  simp [ha]

/-- Loop invariant of `waitLoop`: bounds on the number of probe calls, and
which probe outcomes the loop has seen. -/
theorem waitLoop_spec (probe : Nat → Bool) :
    ∀ (n attempts calls sleptMs : Nat), 400 - attempts ≤ n →
      calls ≤ (waitLoop probe attempts calls sleptMs).calls
      ∧ 2 * ((waitLoop probe attempts calls sleptMs).calls - calls) ≤ 400 - attempts + 1
      ∧ ((waitLoop probe attempts calls sleptMs).ok = true →
          calls < (waitLoop probe attempts calls sleptMs).calls
          ∧ probe ((waitLoop probe attempts calls sleptMs).calls - 1) = true)
      ∧ (∀ k, calls ≤ k → k + 1 < (waitLoop probe attempts calls sleptMs).calls →
          probe k = false)
      ∧ ((waitLoop probe attempts calls sleptMs).ok = false →
          ∀ k, calls ≤ k → k < (waitLoop probe attempts calls sleptMs).calls →
            probe k = false) := by
  intro n
  induction n using Nat.strong_induction_on with
  | _ n ih =>
    intro attempts calls sleptMs hn
    by_cases ha : attempts < 400
    · cases hp : probe calls with
      | true =>
        rw [waitLoop_success probe attempts calls sleptMs ha hp]
        refine ⟨by simp, by simp; omega, fun _ => ⟨by simp, by simpa using hp⟩, ?_, ?_⟩
        · intro k h1 h2
          simp at h2
          omega
        · intro h
          simp at h
      | false =>
        rw [waitLoop_fail probe attempts calls sleptMs ha hp]
        obtain ⟨h1, h2, h3, h4, h5⟩ :=
          ih (400 - (attempts + 1 + 1)) (by omega) (attempts + 1 + 1) (calls + 1)
            (sleptMs + 250) (le_refl _)
        refine ⟨by omega, by omega, fun h => ⟨by omega, (h3 h).2⟩, ?_, ?_⟩
        · intro k hk1 hk2
          rcases Nat.eq_or_lt_of_le hk1 with hk | hk
          · rw [← hk]; exact hp
          · exact h4 k (by omega) hk2
        · intro h k hk1 hk2
          rcases Nat.eq_or_lt_of_le hk1 with hk | hk
          · rw [← hk]; exact hp
          · exact h5 h k (by omega) hk2
    · rw [waitLoop_exhausted probe attempts calls sleptMs ha]
      refine ⟨by simp, by simp, fun h => by simp at h, ?_, ?_⟩
      · intro k h1 h2
        simp at h2
        omega
      · intro _ k h1 h2
        simp at h2
        omega

/-- When no probe succeeds, the loop runs until the counter reaches 400, two
counts per round. -/
theorem waitLoop_all_false (probe : Nat → Bool) (hp : ∀ k, probe k = false) :
    ∀ (n attempts calls sleptMs : Nat), 400 - attempts ≤ n →
      waitLoop probe attempts calls sleptMs
        = { ok := false, calls := calls + (400 - attempts + 1) / 2,
            sleptMs := sleptMs + 250 * ((400 - attempts + 1) / 2) } := by
  intro n
  induction n using Nat.strong_induction_on with
  | _ n ih =>
    intro attempts calls sleptMs hn
    by_cases ha : attempts < 400
    · rw [waitLoop_fail probe attempts calls sleptMs ha (hp calls),
        ih (400 - (attempts + 1 + 1)) (by omega) (attempts + 1 + 1) (calls + 1)
          (sleptMs + 250) (le_refl _)]
      have e : (400 - attempts + 1) / 2 = (400 - (attempts + 1 + 1) + 1) / 2 + 1 := by
        omega
      rw [e]
      congr 1 <;> omega
    · rw [waitLoop_exhausted probe attempts calls sleptMs ha]
      have e : (400 - attempts + 1) / 2 = 0 := by omega
      rw [e]
      simp

/-- C7. For every sequence of probe outcomes, `waitForControlMaster` calls the
probe at most 400 times; it returns true exactly when one of the probes it made
succeeded; a probe that succeeded is the last one made; and it returns false
when the probe always returns false. -/
theorem waitForControlMaster_bound (probe : Nat → Bool) :
    (waitForControlMaster probe).calls ≤ 400
    ∧ ((waitForControlMaster probe).ok = true ↔
        ∃ k, k < (waitForControlMaster probe).calls ∧ probe k = true)
    ∧ (∀ k, k < (waitForControlMaster probe).calls → probe k = true →
        k + 1 = (waitForControlMaster probe).calls)
    ∧ ((∀ k, probe k = false) → (waitForControlMaster probe).ok = false) := by
  obtain ⟨_, h2, h3, h4, h5⟩ := waitLoop_spec probe 400 0 0 0 (by omega)
  unfold waitForControlMaster
  refine ⟨by omega, ⟨fun h => ?_, fun h => ?_⟩, ?_, ?_⟩
  · exact ⟨(waitLoop probe 0 0 0).calls - 1, by have := (h3 h).1; omega, (h3 h).2⟩
  · obtain ⟨k, hk, hpk⟩ := h
    cases hok : (waitLoop probe 0 0 0).ok with
    | true => rfl
    | false =>
      have := h5 hok k (Nat.zero_le _) hk
      rw [hpk] at this
      exact absurd this (by simp)
  · intro k hk hpk
    by_contra hne
    have := h4 k (Nat.zero_le _) (by omega)
    rw [hpk] at this
    exact absurd this (by simp)
  · intro hall
    cases hok : (waitLoop probe 0 0 0).ok with
    | false => rfl
    | true =>
      have := (h3 hok).2
      rw [hall] at this
      exact absurd this (by simp)

/-- Witness for C7: the probe whose fourth call is the first to succeed. The
poller returns true after exactly four calls. -/
theorem waitForControlMaster_bound_witness :
    (waitForControlMaster (fun k => decide (3 ≤ k))).ok = true
    ∧ (waitForControlMaster (fun k => decide (3 ≤ k))).calls = 4 := by
  have e : waitForControlMaster (fun k => decide (3 ≤ k))
      = { ok := true, calls := 4, sleptMs := 750 } := by
    unfold waitForControlMaster
    rw [waitLoop_fail _ _ _ _ (by omega) (by decide),
      waitLoop_fail _ _ _ _ (by omega) (by decide),
      waitLoop_fail _ _ _ _ (by omega) (by decide),
      waitLoop_success _ _ _ _ (by omega) (by decide)]
  have h := waitForControlMaster_bound (fun k => decide (3 ≤ k))
  have hk : 3 < (waitForControlMaster (fun k => decide (3 ≤ k))).calls := by
    rw [e]; decide
  exact ⟨h.2.1.2 ⟨3, hk, by decide⟩, (h.2.2.1 3 hk (by decide)).symm⟩

/-- C8. With a probe that never succeeds, `waitForControlMaster` returns false
after 200 probe calls and 200 sleeps of 250 ms, 50 seconds in all: the loop
counter is incremented twice per round, so it reaches 400 after 200 rounds,
not after 400 probes and 100 seconds. -/
theorem waitForControlMaster_never_ready :
    waitForControlMaster (fun _ => false)
      = { ok := false, calls := 200, sleptMs := 50000 }
    ∧ (waitForControlMaster (fun _ => false)).calls ≠ 400
    ∧ (waitForControlMaster (fun _ => false)).sleptMs ≠ 400 * 250 := by
  have h : waitForControlMaster (fun _ => false)
      = { ok := false, calls := 200, sleptMs := 50000 } := by
    unfold waitForControlMaster
    rw [waitLoop_all_false (fun _ => false) (fun _ => rfl) 400 0 0 0 (by omega)]
  rw [h]
  exact ⟨rfl, by decide, by decide⟩

/-! ## Supervisor: theorems -/

/-- State of the supervisor when the child has been started. -/
theorem pipeToProxyCommand_good (events : List Event) :
    pipeToProxyCommand goodEnv events
      = (if (events.foldl supStep { phase := .running, trace := setupTrace }).phase = .done
          then .returned else .blocked,
         (events.foldl supStep { phase := .running, trace := setupTrace }).trace) := by
  simp [pipeToProxyCommand, goodEnv]

/-- Once `pipeToProxyCommand` has returned, further events change nothing. -/
theorem foldl_supStep_done (events : List Event) (s : Sup) (h : s.phase = .done) :
    events.foldl supStep s = s := by
  induction events with
  | nil => rfl
  | cons e es ih =>
    have hs : supStep s e = s := by
      unfold supStep
      rw [h]
    rw [List.foldl_cons, hs, ih]

/-- When a setup call fails the process ends before the child runs, and the
child is never killed. -/
theorem pipeToProxyCommand_fatal (env : Env) (events : List Event)
    (h : env ≠ goodEnv) :
    killCount (pipeToProxyCommand env events).2 = 0
    ∧ Action.killChild ∉ (pipeToProxyCommand env events).2 := by
  obtain ⟨b1, b2, b3, b4, b5⟩ := env
  cases b1 <;> cases b2 <;> cases b3 <;> cases b4 <;> cases b5 <;>
    first
      | exact absurd rfl h
      | exact ⟨by simp [pipeToProxyCommand, killCount, setupTrace],
          by simp [pipeToProxyCommand, setupTrace]⟩

/-- The invariant `SupInv` holds after every sequence of events. -/
theorem supInv_foldl (events : List Event) :
    SupInv events (events.foldl supStep { phase := .running, trace := setupTrace }) := by
  induction events using List.reverseRecOn with
  | nil => exact ⟨rfl, fun e he => absurd he (List.not_mem_nil e)⟩
  | append_singleton es e ih =>
    rw [List.foldl_append, List.foldl_cons, List.foldl_nil]
    generalize es.foldl supStep { phase := .running, trace := setupTrace } = s at ih
    obtain ⟨phase, trace⟩ := s
    cases phase with
    | running =>
      obtain ⟨ht, hall⟩ := ih
      simp only at ht
      subst ht
      cases e with
      | childExited => exact Or.inl rfl
      | streamFinished =>
        exact ⟨rfl, es, _, [], rfl, hall, Or.inl rfl,
          fun e he => absurd he (List.not_mem_nil e)⟩
      | cancellationFired =>
        exact ⟨rfl, es, _, [], rfl, hall, Or.inr rfl,
          fun e he => absurd he (List.not_mem_nil e)⟩
      | graceTimerFired =>
        refine ⟨rfl, fun e he => ?_⟩
        rcases List.mem_append.1 he with h | h
        · exact hall e h
        · exact List.mem_singleton.1 h
    | grace =>
      obtain ⟨ht, pre, trigger, mid, hev, hpre, htrig, hmid⟩ := ih
      simp only at ht
      subst ht
      subst hev
      cases e with
      | childExited => exact Or.inr (Or.inl rfl)
      | graceTimerFired =>
        exact Or.inr (Or.inr ⟨rfl, pre, trigger, mid, [], by simp, hpre, htrig, hmid⟩)
      | streamFinished =>
        refine ⟨rfl, pre, trigger, mid ++ [Event.streamFinished], by simp, hpre, htrig, ?_⟩
        intro e he
        rcases List.mem_append.1 he with h | h
        · exact hmid e h
        · exact Or.inl (List.mem_singleton.1 h)
      | cancellationFired =>
        refine ⟨rfl, pre, trigger, mid ++ [Event.cancellationFired], by simp, hpre, htrig, ?_⟩
        intro e he
        rcases List.mem_append.1 he with h | h
        · exact hmid e h
        · exact Or.inr (List.mem_singleton.1 h)
    | done =>
      have hstep : supStep { phase := .done, trace := trace } e
          = { phase := .done, trace := trace } := by
        cases e <;> rfl
      rw [hstep]
      rcases ih with h | h | ⟨h, pre, trigger, mid, post, hev, hpre, htrig, hmid⟩
      · exact Or.inl h
      · exact Or.inr (Or.inl h)
      · refine Or.inr (Or.inr ⟨h, pre, trigger, mid, post ++ [e], ?_, hpre, htrig, hmid⟩)
        rw [hev]
        simp

/-- C2. In every run of `pipeToProxyCommand`, `cmd.Process.Kill` is called at
most once; and when it is called, the effects of the run are exactly: setup,
stop the log tail, close the stdin pipe, close the stdout pipe, start the grace
timer, kill, and the events received are a first stream-finished or
cancellation event, then no child exit, then the timer event, with no child
exit received before it. -/
theorem kill_once_after_grace (env : Env) (events : List Event) :
    killCount (pipeToProxyCommand env events).2 ≤ 1
    ∧ (Action.killChild ∈ (pipeToProxyCommand env events).2 →
        (pipeToProxyCommand env events).2
          = setupTrace ++ [Action.cancelLogTail, Action.closeStdin, Action.closeStdout,
              Action.startGraceTimer, Action.killChild, Action.cancelLogTail]
        ∧ ∃ pre trigger mid post,
            events = pre ++ trigger :: (mid ++ Event.graceTimerFired :: post)
            ∧ (trigger = Event.streamFinished ∨ trigger = Event.cancellationFired)
            ∧ Event.childExited ∉ pre ++ trigger :: mid
            ∧ Event.graceTimerFired ∉ mid
            ∧ Event.streamFinished ∉ pre ∧ Event.cancellationFired ∉ pre) := by
  by_cases henv : env = goodEnv
  swap
  · obtain ⟨h0, hmem⟩ := pipeToProxyCommand_fatal env events henv
    exact ⟨by omega, fun h => absurd h hmem⟩
  subst henv
  rw [pipeToProxyCommand_good]
  have hinv := supInv_foldl events
  generalize events.foldl supStep { phase := .running, trace := setupTrace } = s at hinv
  obtain ⟨phase, trace⟩ := s
  cases phase with
  | running =>
    obtain ⟨ht, _⟩ := hinv
    simp only at ht
    subst ht
    exact ⟨by decide, fun h => absurd h (by decide)⟩
  | grace =>
    obtain ⟨ht, _⟩ := hinv
    simp only at ht
    subst ht
    exact ⟨by decide, fun h => absurd h (by decide)⟩
  | done =>
    rcases hinv with ht | ht | ⟨ht, pre, trigger, mid, post, hev, hpre, htrig, hmid⟩
    · simp only at ht
      subst ht
      exact ⟨by decide, fun h => absurd h (by decide)⟩
    · simp only at ht
      subst ht
      exact ⟨by decide, fun h => absurd h (by decide)⟩
    · simp only at ht
      subst ht
      refine ⟨by decide, fun _ => ⟨rfl, pre, trigger, mid, post, hev, htrig, ?_, ?_, ?_, ?_⟩⟩
      · intro hmem
        rcases List.mem_append.1 hmem with h | h
        · exact absurd (hpre _ h) (by decide)
        · rcases List.mem_cons.1 h with h | h
          · rcases htrig with ht | ht <;> rw [ht] at h <;> exact absurd h (by decide)
          · rcases hmid _ h with h | h <;> exact absurd h (by decide)
      · intro h
        rcases hmid _ h with h | h <;> exact absurd h (by decide)
      · intro h
        exact absurd (hpre _ h) (by decide)
      · intro h
        exact absurd (hpre _ h) (by decide)

/-- Witness for C2: the stream finishes, then the grace timer fires. -/
theorem kill_once_after_grace_witness :
    Action.killChild ∈
        (pipeToProxyCommand goodEnv [Event.streamFinished, Event.graceTimerFired]).2
    ∧ (pipeToProxyCommand goodEnv [Event.streamFinished, Event.graceTimerFired]).2
        = setupTrace ++ [Action.cancelLogTail, Action.closeStdin, Action.closeStdout,
            Action.startGraceTimer, Action.killChild, Action.cancelLogTail] :=
  ⟨by decide,
    ((kill_once_after_grace goodEnv
      [Event.streamFinished, Event.graceTimerFired]).2 (by decide)).1⟩

/-- On the events received: when the child exit is received before any
stream-finished or cancellation event is received, `pipeToProxyCommand`
returns, and all it has done after the setup is the deferred stop of the log
tail. -/
theorem natural_exit_shortcut (pre post : List Event)
    (hpre : ∀ e ∈ pre, e ≠ Event.streamFinished ∧ e ≠ Event.cancellationFired) :
    pipeToProxyCommand goodEnv (pre ++ Event.childExited :: post)
        = (Outcome.returned, setupTrace ++ [Action.cancelLogTail])
    ∧ Action.killChild ∉ (pipeToProxyCommand goodEnv (pre ++ Event.childExited :: post)).2
    ∧ Action.closeStdin ∉ (pipeToProxyCommand goodEnv (pre ++ Event.childExited :: post)).2
    ∧ Action.closeStdout ∉ (pipeToProxyCommand goodEnv (pre ++ Event.childExited :: post)).2
    ∧ Action.startGraceTimer ∉
        (pipeToProxyCommand goodEnv (pre ++ Event.childExited :: post)).2 := by
  have key : (pre ++ Event.childExited :: post).foldl supStep
      { phase := .running, trace := setupTrace }
      = { phase := .done, trace := setupTrace ++ [Action.cancelLogTail] } := by
    induction pre with
    | nil =>
      rw [List.nil_append, List.foldl_cons]
      exact foldl_supStep_done post _ rfl
    | cons e es ih =>
      have he := hpre e (List.mem_cons_self e es)
      have hes : ∀ x ∈ es, x ≠ Event.streamFinished ∧ x ≠ Event.cancellationFired :=
        fun x hx => hpre x (List.mem_cons_of_mem e hx)
      rw [List.cons_append, List.foldl_cons]
      cases e with
      | childExited =>
        exact foldl_supStep_done _ _ rfl
      | streamFinished => exact absurd rfl he.1
      | cancellationFired => exact absurd rfl he.2
      | graceTimerFired => exact ih hes
  have e : pipeToProxyCommand goodEnv (pre ++ Event.childExited :: post)
      = (Outcome.returned, setupTrace ++ [Action.cancelLogTail]) := by
    rw [pipeToProxyCommand_good, key]
    rfl
  rw [e]
  exact ⟨rfl, by decide, by decide, by decide, by decide⟩

/-- An instance of `natural_exit_shortcut`: a child exit is received, and a
cancellation afterwards. -/
theorem natural_exit_shortcut_witness :
    pipeToProxyCommand goodEnv
        ([Event.graceTimerFired] ++ Event.childExited :: [Event.cancellationFired])
      = (Outcome.returned, setupTrace ++ [Action.cancelLogTail]) :=
  (natural_exit_shortcut [Event.graceTimerFired] [Event.cancellationFired]
    (by decide)).1

/-! ## Lock manager: theorems -/

/-- Every unlock call is logged. -/
theorem flockUn_log (pid ino : Nat) (t : OS) :
    (flockUn pid ino t).2.log = t.log ++ [Call.flockUn pid ino] := by
  unfold flockUn
  cases h : t.failUnlock <;> simp [h]

/-- An unlock call leaves the directory alone. -/
theorem flockUn_dir (pid ino : Nat) (t : OS) : (flockUn pid ino t).2.dir = t.dir := by
  unfold flockUn
  cases h : t.failUnlock <;> simp [h]

/-- Every remove call is logged. -/
theorem remove_log (pid : Nat) (path : String) (t : OS) :
    (remove pid path t).2.log = t.log ++ [Call.remove pid path] := by
  unfold remove
  dsimp only
  split
  · rfl
  · split <;> rfl

/-- C4. For every path that can be opened: when the lock call answers
`EWOULDBLOCK`, `flockPath` returns `locked = false` and a release function that
returns no error and leaves the kernel state, call log included, as it was;
when the lock is obtained, it returns `locked = true` and a release function
that unlocks and then removes the path, and that after a failed unlock returns
the error having made no remove call and having left the directory as it was. -/
theorem flockPath_contract (pid : Nat) (path : String) (s s1 : OS) (lockFile : Nat)
    (hopen : openFile pid path s = (.ok lockFile, s1)) :
    ((flockEx pid lockFile s1).1 = some Errno.EWOULDBLOCK →
      ∃ release,
        flockPath pid path s = (.ok (release, false), (flockEx pid lockFile s1).2)
        ∧ ∀ t, release t = (none, t))
    ∧ ((flockEx pid lockFile s1).1 = none →
      ∃ release,
        flockPath pid path s = (.ok (release, true), (flockEx pid lockFile s1).2)
        ∧ ∀ t,
          ((flockUn pid lockFile t).1 = none →
            release t = remove pid path (flockUn pid lockFile t).2
            ∧ (release t).2.log
                = t.log ++ [Call.flockUn pid lockFile, Call.remove pid path])
          ∧ (∀ e, (flockUn pid lockFile t).1 = some e →
            release t = (some e, (flockUn pid lockFile t).2)
            ∧ (release t).2.log = t.log ++ [Call.flockUn pid lockFile]
            ∧ (release t).2.dir = t.dir)) := by
  constructor
  · intro hblock
    refine ⟨fun t => (none, t), ?_, fun t => rfl⟩
    unfold flockPath
    rw [hopen]
    simp only [flock]
    cases hfl : flockEx pid lockFile s1 with
    | mk err s2 =>
      rw [hfl] at hblock
      simp only at hblock
      subst hblock
      simp [noop]
  · intro hok
    refine ⟨fun t =>
      match flockUn pid lockFile t with
      | (some e, t) => (some e, t)
      | (none, t) => remove pid path t, ?_, fun t => ⟨?_, ?_⟩⟩
    · unfold flockPath
      rw [hopen]
      simp only [flock]
      cases hfl : flockEx pid lockFile s1 with
      | mk err s2 =>
        rw [hfl] at hok
        simp only at hok
        subst hok
        simp
    · intro hun
      cases hfu : flockUn pid lockFile t with
      | mk err t2 =>
        have hlog := flockUn_log pid lockFile t
        rw [hfu] at hun hlog
        simp only at hun hlog
        subst hun
        have hrel : (match flockUn pid lockFile t with
            | (some e, t) => (some e, t)
            | (none, t) => remove pid path t) = remove pid path t2 := by
          rw [hfu]
        refine ⟨hrel, ?_⟩
        dsimp only
        rw [hrel, remove_log, hlog, List.append_assoc]
        rfl
    · intro e hun
      cases hfu : flockUn pid lockFile t with
      | mk err t2 =>
        have hlog := flockUn_log pid lockFile t
        have hdir := flockUn_dir pid lockFile t
        rw [hfu] at hun hlog hdir
        simp only at hun hlog hdir
        subst hun
        have hrel : (match flockUn pid lockFile t with
            | (some e, t) => (some e, t)
            | (none, t) => remove pid path t) = (some e, t2) := by
          rw [hfu]
        refine ⟨hrel, ?_, ?_⟩
        · dsimp only
          rw [hrel]
          exact hlog
        · dsimp only
          rw [hrel]
          exact hdir

/-- Witness for C4: instance 0 locks the absent path `L`; its release
function, run on the state `flockPath` left, empties the directory again. -/
theorem flockPath_contract_witness :
    ∃ release,
      flockPath 0 "L" emptyOS
        = (.ok (release, true), (flockEx 0 0 (openFile 0 "L" emptyOS).2).2)
      ∧ (release (flockEx 0 0 (openFile 0 "L" emptyOS).2).2).1 = none
      ∧ (release (flockEx 0 0 (openFile 0 "L" emptyOS).2).2).2.dir = [] := by
  obtain ⟨release, h1, h2⟩ :=
    (flockPath_contract 0 "L" emptyOS (openFile 0 "L" emptyOS).2 0 rfl).2 (by decide)
  refine ⟨release, h1, ?_, ?_⟩
  · rw [((h2 (flockEx 0 0 (openFile 0 "L" emptyOS).2).2).1 (by decide)).1]
    decide
  · rw [((h2 (flockEx 0 0 (openFile 0 "L" emptyOS).2).2).1 (by decide)).1]
    decide

/-- The call-by-call reading `stepProc` agrees with `flockPath` and with the
release function it returns: two uninterrupted steps from `start` are one call
of `flockPath`, and two uninterrupted steps from its return are one call of the
release function. -/
theorem stepProc_flockPath (pid : Nat) (path : String) (s : OS) :
    match flockPath pid path s with
    | (.error e, s2) => stepProcTwice pid path .start s = (.fatal e, s2)
    | (.ok (release, locked), s2) =>
      ∃ ino, stepProcTwice pid path .start s = (.returned ino locked, s2)
        ∧ ∀ t, stepProcTwice pid path (.returned ino locked) t
            = (.released (release t).1, (release t).2) := by
  unfold flockPath stepProcTwice
  cases hopen : openFile pid path s with
  | mk r s1 =>
    cases r with
    | error e => simp [stepProc, hopen]
    | ok ino =>
      simp only [stepProc, hopen, flock]
      cases hfl : flockEx pid ino s1 with
      | mk err s2 =>
        cases err with
        | none =>
          simp only [reduceCtorEq, if_false, ne_eq, not_true_eq_false]
          refine ⟨ino, rfl, fun t => ?_⟩
          simp only [if_true]
          cases hun : flockUn pid ino t with
          | mk err2 t2 =>
            cases err2 with
            | none => simp only
            | some e2 => rfl
        | some e =>
          by_cases he : e = Errno.EWOULDBLOCK
          · subst he
            simp only [if_true]
            exact ⟨ino, rfl, fun t => rfl⟩
          · simp [he]

/-- Opening a file changes no lock. -/
theorem openFile_held (pid : Nat) (path : String) (s : OS) :
    (openFile pid path s).2.held = s.held := by
  unfold openFile
  dsimp only
  split
  · rfl
  · split <;> rfl

/-- Removing a path changes no lock. -/
theorem remove_held (pid : Nat) (path : String) (s : OS) :
    (remove pid path s).2.held = s.held := by
  unfold remove
  dsimp only
  split
  · rfl
  · split <;> rfl

/-- The lock call grants an inode to one holder at most. -/
theorem flockEx_exclusive (pid ino : Nat) (s : OS) (h : s.exclusive) :
    (flockEx pid ino s).2.exclusive := by
  unfold OS.exclusive at *
  unfold flockEx
  dsimp only
  split
  · exact h
  · split
    · split <;> exact h
    · rename_i hh
      simp only [List.map_cons, List.nodup_cons]
      refine ⟨?_, h⟩
      intro hmem
      obtain ⟨e, he, hei⟩ := List.mem_map.1 hmem
      unfold OS.holder at hh
      rw [Option.map_eq_none'] at hh
      have := List.find?_eq_none.1 hh e he
      simp [hei] at this

/-- The unlock call only drops a holder. -/
theorem flockUn_exclusive (pid ino : Nat) (s : OS) (h : s.exclusive) :
    (flockUn pid ino s).2.exclusive := by
  unfold OS.exclusive at *
  unfold flockUn
  dsimp only
  split
  · exact h
  · exact List.Nodup.sublist ((List.filter_sublist _).map _) h

/-- Each call of an instance keeps every inode at one holder at most. -/
theorem stepProc_exclusive (pid : Nat) (path : String) (p : Proc) (s : OS)
    (h : s.exclusive) : (stepProc pid path p s).2.exclusive := by
  cases p with
  | start =>
    have hh := openFile_held pid path s
    simp only [stepProc]
    cases ho : openFile pid path s with
    | mk r s1 =>
      rw [ho] at hh
      cases r <;> (unfold OS.exclusive at *; simp only at hh ⊢; rw [hh]; exact h)
  | opened ino =>
    have hh := flockEx_exclusive pid ino s h
    simp only [stepProc]
    cases ho : flockEx pid ino s with
    | mk err s1 =>
      rw [ho] at hh
      simp only at hh ⊢
      split
      · exact hh
      · split <;> exact hh
  | returned ino locked =>
    have hh := flockUn_exclusive pid ino s h
    simp only [stepProc]
    cases locked with
    | false => exact h
    | true =>
      simp only [if_true]
      cases ho : flockUn pid ino s with
      | mk err s1 =>
        rw [ho] at hh
        cases err <;> exact hh
  | unlocked ino =>
    have hh := remove_held pid path s
    simp only [stepProc]
    cases ho : remove pid path s with
    | mk err s1 =>
      rw [ho] at hh
      unfold OS.exclusive at *
      simp only at hh ⊢
      rw [hh]
      exact h
  | released err => exact h
  | fatal e => exact h

/-- In every interleaving of any number of instances, the kernel never lets two
open files hold the lock of one inode. -/
theorem runSchedule_exclusive (path : String) (schedule : List Nat) :
    ∀ σ : Sys, σ.os.exclusive → (runSchedule path σ schedule).os.exclusive := by
  induction schedule with
  | nil => intro σ h; exact h
  | cons pid rest ih =>
    intro σ h
    unfold runSchedule
    rw [List.foldl_cons]
    apply ih
    unfold sysStep
    cases hp : σ.procs.get? pid with
    | none => exact h
    | some p => exact stepProc_exclusive pid path p σ.os h

/-- A remove call that returns no error leaves no entry for the path. -/
theorem remove_ok_absent (pid : Nat) (path : String) (t : OS)
    (h : (remove pid path t).1 = none) : (remove pid path t).2.lookup path = none := by
  unfold remove at h ⊢
  dsimp only at h ⊢
  split at h
  · simp at h
  · split at h
    · simp at h
    · rename_i hf _ _ hl
      simp only [hf, hl]
      unfold OS.lookup
      rw [Option.map_eq_none', List.find?_eq_none]
      intro e he
      have := (List.mem_filter.1 he).2
      simpa using this

/-- C1. Three instances on the same path: instance 0 acquires the lock and
starts to release it; between its unlock and its remove, instance 1 opens the
still existing file and locks it; after the remove, instance 2 creates a new
file at the path and locks that one. Instances 1 and 2 both observe
`locked = true`, each lock being on a different inode. -/
theorem flockPath_two_holders :
    (runSchedule "L" (initSys 3) [0, 0, 0, 1, 1, 0, 2, 2]).procs
      = [Proc.released none, Proc.returned 0 true, Proc.returned 1 true]
    ∧ (runSchedule "L" (initSys 3) [0, 0, 0, 1, 1, 0, 2, 2]).lockedCount = 2
    ∧ (runSchedule "L" (initSys 3) [0, 0, 0, 1, 1, 0, 2, 2]).os.holder 0 = some 1
    ∧ (runSchedule "L" (initSys 3) [0, 0, 0, 1, 1, 0, 2, 2]).os.holder 1 = some 2
    ∧ (runSchedule "L" (initSys 3) [0, 0, 0, 1, 1, 0, 2, 2]).os.log
      = [Call.openFile 0 "L", Call.flockEx 0 0, Call.flockUn 0 0,
         Call.openFile 1 "L", Call.flockEx 1 0, Call.remove 0 "L",
         Call.openFile 2 "L", Call.flockEx 2 1] := by
  decide

/-- C5. Two instances on the same path: instance 0 acquires the lock and
releases it; between its unlock and its remove, instance 1 opens the file and
acquires the lock. When the release of instance 0 has returned without error,
instance 1 observes `locked = true` and holds the lock of inode 0, and the
lock-file path does not exist. -/
theorem release_removes_newer_holder_file :
    (runSchedule "L" (initSys 2) [0, 0, 0, 1, 1, 0]).procs
      = [Proc.released none, Proc.returned 0 true]
    ∧ (runSchedule "L" (initSys 2) [0, 0, 0, 1, 1, 0]).os.holder 0 = some 1
    ∧ (runSchedule "L" (initSys 2) [0, 0, 0, 1, 1, 0]).os.lookup "L" = none
    ∧ (runSchedule "L" (initSys 2) [0, 0, 0, 1, 1]).os.lookup "L" = some 0 := by
  decide

/-- C6. `lockOrExit` and `lockOrExpectControlMaster`, having obtained the lock
for `-lock -r bob -h h1`, end the process through `log.Fatal` when the log
tail, a pipe or the child fails to start inside `pipeToProxyCommand`: the
release function is run zero times, and at the call of `os.Exit` the lock
file is still in the directory and no unlock call has been made. On the run in
which the child starts and exits, release runs once and the lock file is
gone. -/
theorem fatal_abort_skips_release :
    parseConfig (flagsConfig "bob" "h1" 22 true) "" "" = some bobConfig
    ∧ (∀ env ∈ [{ goodEnv with tailStarts := false }, { goodEnv with stdinPipeOk := false },
          { goodEnv with stdoutPipeOk := false }, { goodEnv with childStarts := false }],
        lockOrExit 0 bobConfig env [] emptyOS
          = { outcome := .exited 1, locked := true, releaseRuns := 0,
              os := (flockPath 0 bobConfig.LockFilePath emptyOS).2 }
        ∧ lockOrExpectControlMaster 0 bobConfig env [] (fun _ => true) emptyOS
          = { outcome := .exited 1, locked := true, releaseRuns := 0,
              os := (flockPath 0 bobConfig.LockFilePath emptyOS).2 })
    ∧ (flockPath 0 bobConfig.LockFilePath emptyOS).2.lookup bobConfig.LockFilePath = some 0
    ∧ (flockPath 0 bobConfig.LockFilePath emptyOS).2.holder 0 = some 0
    ∧ (lockOrExit 0 bobConfig goodEnv [Event.childExited] emptyOS).releaseRuns = 1
    ∧ (lockOrExit 0 bobConfig goodEnv [Event.childExited] emptyOS).os.lookup
        bobConfig.LockFilePath = none := by
  decide

/-- The supervisor ends the process exactly when a setup call fails. -/
theorem pipeToProxyCommand_exited (env : Env) (events : List Event) :
    (env ≠ goodEnv → (pipeToProxyCommand env events).1 = Outcome.exited 1)
    ∧ (env = goodEnv → ∀ c, (pipeToProxyCommand env events).1 ≠ Outcome.exited c) := by
  constructor
  · intro h
    obtain ⟨b1, b2, b3, b4, b5⟩ := env
    cases b1 <;> cases b2 <;> cases b3 <;> cases b4 <;> cases b5 <;>
      first
        | exact absurd rfl h
        | simp [pipeToProxyCommand]
  · intro h c
    subst h
    rw [pipeToProxyCommand_good]
    dsimp only
    split <;> simp

/-- How the two locking entry points end once `flockPath` has returned
`locked = true`: they end the way `pipeToProxyCommand` ends. When it returns,
the deferred release function runs exactly once, on the state `flockPath`
left. When one of its setup calls fails, the process ends with exit code 1 and
the release function is not run: the kernel state is the one `flockPath` left. -/
theorem release_runs_iff_returned (pid : Nat) (config : Config) (env : Env)
    (events : List Event) (probe : Nat → Bool) (s : OS)
    (hl : (lockOrExit pid config env events s).locked = true) :
    (lockOrExit pid config env events s).outcome = (pipeToProxyCommand env events).1
    ∧ lockOrExpectControlMaster pid config env events probe s
        = lockOrExit pid config env events s
    ∧ ((pipeToProxyCommand env events).1 = Outcome.returned →
        (lockOrExit pid config env events s).releaseRuns = 1
        ∧ ∀ release s2, flockPath pid config.LockFilePath s = (.ok (release, true), s2) →
            (lockOrExit pid config env events s).os = (release s2).2)
    ∧ (env ≠ goodEnv →
        (lockOrExit pid config env events s).outcome = Outcome.exited 1
        ∧ (lockOrExit pid config env events s).releaseRuns = 0
        ∧ (lockOrExit pid config env events s).os
            = (flockPath pid config.LockFilePath s).2) := by
  unfold lockOrExit lockOrExpectControlMaster at *
  cases hfp : flockPath pid config.LockFilePath s with
  | mk r s2 =>
    rw [hfp] at hl
    cases r with
    | error e => simp at hl
    | ok v =>
      obtain ⟨release, locked⟩ := v
      cases locked with
      | false => simp [runDeferred] at hl
      | true =>
        simp only [if_true]
        have hex := (pipeToProxyCommand_exited env events).1
        cases ho : (pipeToProxyCommand env events).1 with
        | returned =>
          refine ⟨rfl, trivial, fun _ => ⟨rfl, fun release2 s3 h => ?_⟩, fun h => ?_⟩
          · simp only [Prod.mk.injEq, Except.ok.injEq, and_true] at h
            obtain ⟨h1, h2⟩ := h
            subst h1
            subst h2
            rfl
          · rw [hex h] at ho
            exact absurd ho (by simp)
        | exited c =>
          refine ⟨rfl, trivial, fun h => absurd h (by simp), fun h => ?_⟩
          rw [hex h] at ho
          simp only [Outcome.exited.injEq] at ho
          subst ho
          exact ⟨rfl, rfl, rfl⟩
        | blocked =>
          refine ⟨rfl, trivial, fun h => absurd h (by simp), fun h => ?_⟩
          rw [hex h] at ho
          exact absurd ho (by simp)

/-- An instance of `release_runs_iff_returned`: the lock is obtained, the child
runs and exits on its own, and release runs once. -/
theorem release_runs_iff_returned_witness :
    (lockOrExit 0 bobConfig goodEnv [Event.childExited] emptyOS).locked = true
    ∧ (lockOrExit 0 bobConfig goodEnv [Event.childExited] emptyOS).outcome
        = Outcome.returned
    ∧ (lockOrExit 0 bobConfig goodEnv [Event.childExited] emptyOS).releaseRuns = 1 := by
  have h := release_runs_iff_returned 0 bobConfig goodEnv [Event.childExited]
    (fun _ => false) emptyOS (by decide)
  exact ⟨by decide, h.1.trans (by decide), (h.2.2.1 (by decide)).1⟩

/-! ## Natural exit and the race of `cmdDone` with `stdioDone` -/

end Pcmd
